import Mathlib

/-!
# ShowFinder: the event discovery pipeline of `src/components/ShowFinder.jsx`

A shallow embedding of the component's logic: metadata decoding (`parseMetadata`),
the two-stage filter (`filteredEvents`), the visible prefix (`currentEvents`), the
trending strip (`latestEvents`), the intersection-observer callback, the category
toggle and the on-mount fetch (`fetchEvents`).

JavaScript strings are sequences of UTF-16 code units. The two host built-ins whose
full definition lies outside the component, `String.prototype.toLowerCase` and the
`URL` constructor, are a parameter (`Host`) of every definition that calls them, so the
general theorems hold for whatever the host provides. `hostModel` is a concrete host used
to evaluate the definitions on explicit inputs.
-/

namespace ShowFinder

/-! ## Strings -/

/-- A JavaScript string: its UTF-16 code units. -/
abbrev Str := List Nat

/-- UTF-16 encoding of one code point. -/
def codeUnits (c : Nat) : List Nat :=
  if c < 0x10000 then [c]
  else [0xD800 + (c - 0x10000) / 0x400, 0xDC00 + (c - 0x10000) % 0x400]

/-- The JavaScript string written as the literal `s`. -/
def lit (s : String) : Str := s.toList.flatMap (fun c => codeUnits c.toNat)

/-- `StringIndexOf(s, search, 0)` of ECMA-262: the least index `i` with
`0 ≤ i ≤ len(s) - len(search)` at which `search` occurs in `s`, if any. -/
def stringIndexOf (s search : Str) : Option Nat :=
  (List.range (s.length + 1 - search.length)).find?
    (fun i => (s.drop i).take search.length == search)

/-- `s.includes(search)` on strings. -/
def includes (s search : Str) : Bool := (stringIndexOf s search).isSome

/-- `a.includes(x)` on an array of strings (SameValueZero is string equality). -/
def arrayIncludes (a : List Str) (x : Str) : Bool := a.any (fun y => y == x)

/-- Index clamping of `Array.prototype.slice`: a negative index counts from the end. -/
def relIndex (len : Nat) (i : Int) : Nat :=
  if i < 0 then (len + i).toNat else min i.toNat len

/-- `a.slice(start, stop)`; `stop = none` is an omitted second argument. -/
def slice {α : Type} (a : List α) (start : Int) (stop : Option Int) : List α :=
  let len := a.length
  let k := relIndex len start
  let final := match stop with
    | none => len
    | some e => relIndex len e
  (a.drop k).take (final - k)

/-! ## Host built-ins -/

/-- The host functions the component calls. `toLowerCase s` is `s.toLowerCase()`;
`URL s` is `new URL(s).searchParams` as its ordered list of name/value pairs, and `none`
when the constructor throws. -/
structure Host where
  toLowerCase : Str → Str
  URL : Str → Option (List (Str × Str))

/-- `searchParams.get(name)`: the value of the first pair named `name`, else `null`. -/
def searchParamsGet (searchParams : List (Str × Str)) (name : Str) : Option Str :=
  (searchParams.find? (fun p => p.1 == name)).map Prod.snd

/-- `v || d` for `v` a string or `null`: `null` and the empty string are falsy. -/
def orDefault (v : Option Str) (d : Str) : Str :=
  match v with
  | none => d
  | some [] => d
  | some (c :: cs) => c :: cs

/-! ### A concrete host

`toLowerCase` follows the Unicode default case conversion that ECMA-262 prescribes
(UnicodeData simple mappings plus the language-insensitive rules of SpecialCasing, of
which `Final_Sigma` is the only contextual one), with the character tables restricted to
Basic Latin, Latin-1 Supplement and the Greek letters U+0391..U+03C9; code points outside
these blocks pass unchanged. -/

def isHighSurrogate (u : Nat) : Bool := decide (0xD800 ≤ u) && decide (u ≤ 0xDBFF)

def isLowSurrogate (u : Nat) : Bool := decide (0xDC00 ≤ u) && decide (u ≤ 0xDFFF)

/-- `StringToCodePoints`: surrogate pairs are joined, lone surrogates kept. -/
def stringToCodePoints : Str → List Nat
  | [] => []
  | [u] => [u]
  | u :: v :: rest =>
    if isHighSurrogate u && isLowSurrogate v then
      (0x10000 + (u - 0xD800) * 0x400 + (v - 0xDC00)) :: stringToCodePoints rest
    else u :: stringToCodePoints (v :: rest)

/-- `CodePointsToString`. -/
def codePointsToString (cps : List Nat) : Str := cps.flatMap codeUnits

/-- Unicode property `Cased` on the modelled blocks. -/
def isCased (c : Nat) : Bool :=
  (decide (0x41 ≤ c) && decide (c ≤ 0x5A)) || (decide (0x61 ≤ c) && decide (c ≤ 0x7A)) ||
  c == 0xAA || c == 0xB5 || c == 0xBA ||
  (decide (0xC0 ≤ c) && decide (c ≤ 0xFF) && c != 0xD7 && c != 0xF7) ||
  (decide (0x391 ≤ c) && decide (c ≤ 0x3C9) && c != 0x3A2)

/-- Unicode property `Case_Ignorable` on the modelled blocks. -/
def isCaseIgnorable (c : Nat) : Bool :=
  c == 0x27 || c == 0x2E || c == 0x3A || c == 0x5E || c == 0x60 ||
  c == 0xA8 || c == 0xAD || c == 0xAF || c == 0xB4 || c == 0xB7 || c == 0xB8

/-- Skipping case-ignorable code points, is the next code point cased? Applied to the
reversed prefix it is the "preceded by" half of `Final_Sigma`, applied to the suffix the
"followed by" half. -/
def nextIsCased : List Nat → Bool
  | [] => false
  | c :: cs => if isCaseIgnorable c then nextIsCased cs else isCased c

/-- The context-free lowercase mapping of one code point. -/
def simpleLower (c : Nat) : Nat :=
  if 0x41 ≤ c ∧ c ≤ 0x5A then c + 32
  else if 0xC0 ≤ c ∧ c ≤ 0xDE ∧ c ≠ 0xD7 then c + 32
  else if 0x391 ≤ c ∧ c ≤ 0x3AB ∧ c ≠ 0x3A2 then c + 32
  else c

/-- Lowercase the code points `cps`, `before` being the code points already consumed,
most recent first. Capital sigma becomes final sigma under `Final_Sigma`. -/
def lowerFrom (before : List Nat) : List Nat → List Nat
  | [] => []
  | c :: rest =>
    (if c = 0x3A3 then
      (if nextIsCased before && !nextIsCased rest then 0x3C2 else 0x3C3)
     else simpleLower c) :: lowerFrom (c :: before) rest

/-- Model of `String.prototype.toLowerCase`. -/
def toLowerCase (s : Str) : Str :=
  codePointsToString (lowerFrom [] (stringToCodePoints s))

/-! `parseURL` follows the WHATWG URL parser without a base URL: the input is trimmed, a
scheme is required, the query runs from the first `?` to the first `#`, and
`searchParams` is the `application/x-www-form-urlencoded` parse of the query. Host
validation of the authority is reduced to "a special scheme needs a non-empty
authority", and percent escapes are decoded byte by byte, which is exact for escapes
below `%80`. -/

def isAsciiAlpha (u : Nat) : Bool :=
  (decide (0x41 ≤ u) && decide (u ≤ 0x5A)) || (decide (0x61 ≤ u) && decide (u ≤ 0x7A))

def isAsciiDigit (u : Nat) : Bool := decide (0x30 ≤ u) && decide (u ≤ 0x39)

def isSchemeChar (u : Nat) : Bool :=
  isAsciiAlpha u || isAsciiDigit u || u == 0x2B || u == 0x2D || u == 0x2E

/-- Leading and trailing C0 controls and spaces are removed, then every tab and newline. -/
def trimInput (s : Str) : Str :=
  (((s.dropWhile (fun u => decide (u ≤ 0x20))).reverse.dropWhile
    (fun u => decide (u ≤ 0x20))).reverse).filter (fun u => !(u == 9 || u == 10 || u == 13))

/-- Scheme and remainder of an absolute URL string; `none` when there is no scheme. -/
def splitScheme : Str → Option (Str × Str)
  | [] => none
  | c :: rest =>
    if isAsciiAlpha c then
      match rest.dropWhile isSchemeChar with
      | 0x3A :: remaining => some (c :: rest.takeWhile isSchemeChar, remaining)
      | _ => none
    else none

def isSpecialScheme (scheme : Str) : Bool :=
  let s := scheme.map (fun u => if decide (0x41 ≤ u) && decide (u ≤ 0x5A) then u + 32 else u)
  s == lit "http" || s == lit "https" || s == lit "ws" || s == lit "wss" || s == lit "ftp"

/-- The authority of a special URL: slashes and backslashes skipped, up to the next
`/`, `\`, `?` or `#`. -/
def authorityOf (remaining : Str) : Str :=
  (remaining.dropWhile (fun u => u == 0x2F || u == 0x5C)).takeWhile
    (fun u => !(u == 0x2F || u == 0x5C || u == 0x3F || u == 0x23))

/-- The query: after the first `?`, before the first `#`. -/
def queryOf (remaining : Str) : Str :=
  ((remaining.takeWhile (fun u => u != 0x23)).dropWhile (fun u => u != 0x3F)).drop 1

/-- Split at each occurrence of `sep`. -/
def splitOn (sep : Nat) : Str → List Str
  | [] => [[]]
  | c :: rest =>
    if c = sep then [] :: splitOn sep rest
    else match splitOn sep rest with
      | [] => [[c]]
      | piece :: pieces => (c :: piece) :: pieces

def hexValue (u : Nat) : Option Nat :=
  if 0x30 ≤ u ∧ u ≤ 0x39 then some (u - 0x30)
  else if 0x41 ≤ u ∧ u ≤ 0x46 then some (u - 0x41 + 10)
  else if 0x61 ≤ u ∧ u ≤ 0x66 then some (u - 0x61 + 10)
  else none

/-- Percent-decoding: `%XY` with two hex digits becomes the byte `XY`. -/
def percentDecode : Str → Str
  | [] => []
  | [c] => [c]
  | [c, d] => [c, d]
  | c :: a :: b :: rest =>
    match (if c = 0x25 then hexValue a else none), hexValue b with
    | some x, some y => (16 * x + y) :: percentDecode rest
    | _, _ => c :: percentDecode (a :: b :: rest)

/-- One name/value pair of the urlencoded parser: split at the first `=`, `+` read as a
space, both halves percent-decoded. -/
def parsePair (piece : Str) : Str × Str :=
  let plus := fun (t : Str) => t.map (fun u => if u = 0x2B then 0x20 else u)
  (percentDecode (plus (piece.takeWhile (fun u => u != 0x3D))),
   percentDecode (plus ((piece.dropWhile (fun u => u != 0x3D)).drop 1)))

/-- The `application/x-www-form-urlencoded` parser: empty pieces are skipped. -/
def parseQuery (query : Str) : List (Str × Str) :=
  ((splitOn 0x26 query).filter (fun piece => !piece.isEmpty)).map parsePair

/-- Model of `new URL(input).searchParams`. -/
def parseURL (input : Str) : Option (List (Str × Str)) :=
  match splitScheme (trimInput input) with
  | none => none
  | some (scheme, remaining) =>
    if isSpecialScheme scheme && (authorityOf remaining).isEmpty then none
    else some (parseQuery (queryOf remaining))

/-- The concrete host. -/
def hostModel : Host := ⟨toLowerCase, parseURL⟩

/-! ## Data model -/

/-- The record built by `fetchEvents` for one ledger event; every field is a string. -/
structure EventRecord where
  id : Str
  creator : Str
  ticketPrice : Str
  metadataURI : Str
  maxTickets : Str
  ticketsSold : Str
deriving DecidableEq, Repr

/-- The object returned by `parseMetadata`. -/
structure Metadata where
  title : Str
  desc : Str
  date : Str
  location : Str
  image : Str
  eventType : Str
deriving DecidableEq, Repr

/-- The object of the `catch` branch of `parseMetadata`. -/
def defaultMetadata : Metadata :=
  { title := lit "No Title", desc := lit "No Description", date := lit "N/A",
    location := lit "N/A", image := lit "", eventType := lit "" }

/-- `parseMetadata(metadataURI)`. -/
def parseMetadata (H : Host) (metadataURI : Str) : Metadata :=
  match H.URL metadataURI with
  | some searchParams =>
    { title := orDefault (searchParamsGet searchParams (lit "title")) (lit "No Title")
      desc := orDefault (searchParamsGet searchParams (lit "desc")) (lit "No Description")
      date := orDefault (searchParamsGet searchParams (lit "date")) (lit "N/A")
      location := orDefault (searchParamsGet searchParams (lit "location")) (lit "N/A")
      image := orDefault (searchParamsGet searchParams (lit "image")) (lit "")
      eventType := orDefault (searchParamsGet searchParams (lit "eventType")) (lit "") }
  | none => defaultMetadata

/-- The `filteredEvents` of one render: the text stage, then the category stage when a
category is selected. -/
def filteredEvents (H : Host) (onChainEvents : List EventRecord) (query : Str)
    (selectedCategories : List Str) : List EventRecord :=
  let filteredEvents := onChainEvents.filter (fun event =>
    includes (H.toLowerCase event.metadataURI) (H.toLowerCase query))
  if selectedCategories.length > 0 then
    filteredEvents.filter (fun event =>
      let metadata := parseMetadata H event.metadataURI
      arrayIncludes (selectedCategories.map H.toLowerCase) (H.toLowerCase metadata.eventType))
  else filteredEvents

/-- The `currentEvents` of one render: `filteredEvents.slice(0, visibleCount)`. -/
def currentEvents (filteredEvents : List EventRecord) (visibleCount : Nat) :
    List EventRecord :=
  slice filteredEvents 0 (some (visibleCount : Int))

/-- The `latestEvents` of one render: `[...onChainEvents].slice(-5).reverse()` for a
non-empty collection, `[]` otherwise. -/
def latestEvents (onChainEvents : List EventRecord) : List EventRecord :=
  if onChainEvents.length > 0 then (slice onChainEvents (-5) none).reverse else []

/-! ### Array identity

`Array.prototype.reverse` works in place, so whether `latestEvents` leaves the
collection alone depends on which array object it reverses. Arrays are objects in a
store, addressed by position. -/

/-- A store of array objects. -/
abbrev Store (α : Type) := List (List α)

/-- The contents of the array at reference `r`. -/
def Store.read {α : Type} (h : Store α) (r : Nat) : List α := h.getD r []

/-- A fresh array with contents `a`: the new store and the new reference. -/
def Store.alloc {α : Type} (h : Store α) (a : List α) : Store α × Nat :=
  (h ++ [a], h.length)

/-- The spread copy `[...a]`: a fresh array. -/
def spreadRef {α : Type} (h : Store α) (a : Nat) : Store α × Nat :=
  h.alloc (h.read a)

/-- The call `a.slice(start, stop)`: a fresh array. -/
def sliceRef {α : Type} (h : Store α) (a : Nat) (start : Int) (stop : Option Int) :
    Store α × Nat :=
  h.alloc (slice (h.read a) start stop)

/-- The call `a.reverse()`: reverses the array `a` itself and returns `a`. -/
def reverseRef {α : Type} (h : Store α) (a : Nat) : Store α × Nat :=
  (h.set a (h.read a).reverse, a)

/-- The `latestEvents` expression evaluated on the array object `onChainEvents`. -/
def latestEventsRef (h : Store EventRecord) (onChainEvents : Nat) :
    Store EventRecord × Nat :=
  if (h.read onChainEvents).length > 0 then
    let copy := spreadRef h onChainEvents
    let sliced := sliceRef copy.1 copy.2 (-5) none
    reverseRef sliced.1 sliced.2
  else h.alloc []

/-! ## Component state and updates -/

/-- The `useState` cells of `ShowFinder` that the pipeline reads. -/
structure State where
  query : Str
  onChainEvents : List EventRecord
  loadingEvents : Bool
  visibleCount : Nat
  selectedCategories : List Str
deriving DecidableEq, Repr

/-- The state at mount. -/
def initialState : State :=
  { query := lit "", onChainEvents := [], loadingEvents := false, visibleCount := 6,
    selectedCategories := [] }

/-- The values one render of the component computes. -/
structure View where
  filteredEvents : List EventRecord
  currentEvents : List EventRecord
  latestEvents : List EventRecord
deriving DecidableEq, Repr

/-- One execution of the component body. -/
def render (H : Host) (st : State) : View :=
  let filtered := filteredEvents H st.onChainEvents st.query st.selectedCategories
  { filteredEvents := filtered
    currentEvents := currentEvents filtered st.visibleCount
    latestEvents := latestEvents st.onChainEvents }

/-- The handler `searchqueryfunc`: `setQuery(e.target.value)`. -/
def searchqueryfunc (st : State) (value : Str) : State :=
  { st with query := value }

/-- The updater passed to `setSelectedCategories` by `toggleCategory(category)`. -/
def toggleCategory (prev : List Str) (category : Str) : List Str :=
  if arrayIncludes prev category then prev.filter (fun cat => cat != category)
  else prev ++ [category]

/-- The handler `toggleCategory` applied to the state. -/
def clickCategory (st : State) (category : Str) : State :=
  { st with selectedCategories := toggleCategory st.selectedCategories category }

/-- Has a dependency of `useEffect(..., [query, selectedCategories])` changed between
two renders? -/
def depsChanged (prev next : State) : Bool :=
  prev.query != next.query || prev.selectedCategories != next.selectedCategories

/-- The effect `setVisibleCount(6)`, run after the render of `next` has been committed
when one of its dependencies differs from the previous render `prev`. -/
def resetEffect (prev next : State) : State :=
  if depsChanged prev next then { next with visibleCount := 6 } else next

/-- One React update. State `prev` was rendered last and a handler has replaced it by
`next`. The component body runs with `next`; after that render is committed the effects
run; if `setVisibleCount(6)` changed the state the body runs once more. The result is the
views computed, in order, and the state reached. -/
def update (H : Host) (prev next : State) : List View × State :=
  let afterEffects := resetEffect prev next
  if afterEffects.visibleCount = next.visibleCount then ([render H next], afterEffects)
  else ([render H next, render H afterEffects], afterEffects)

/-- The `IntersectionObserver` callback created by a render with the given
`visibleCount` and `filteredEvents.length`: the updater it passes to `setVisibleCount`,
if it calls it. `entries` lists `isIntersecting` of each entry. -/
def observerCallback (entries : List Bool) (visibleCount filteredLength : Nat) :
    Option (Nat → Nat) :=
  match entries.head? with
  | some isIntersecting =>
    if isIntersecting && decide (visibleCount < filteredLength) then
      some (fun prev => prev + 5)
    else none
  | none => none

/-- A state cell after an optional functional update. -/
def applyUpdater (updater : Option (Nat → Nat)) (value : Nat) : Nat :=
  match updater with
  | some f => f value
  | none => value

/-- The reveal count after the sentinel is reported intersecting, for the callback of the
render that saw reveal count `visibleCount` and `filteredLength` filtered records. -/
def scrollStep (visibleCount filteredLength : Nat) : Nat :=
  applyUpdater (observerCallback [true] visibleCount filteredLength) visibleCount

/-! ## Fetching -/

/-- The struct returned by `contract.events(id)`. -/
structure RawEvent where
  creator : Str
  ticketPrice : Nat
  metadataURI : Str
  maxTickets : Nat
  ticketsSold : Nat
deriving DecidableEq, Repr

/-- Outcomes of the calls into `../blockchain` and the contract during one refresh;
`none` is a rejected promise or a thrown exception. -/
structure Blockchain (Signer Contract : Type) where
  connectWallet : Option Signer
  getContractInstance : Signer → Option Contract
  getAllEventIds : Signer → Option (List Nat)
  events : Contract → Nat → Option RawEvent

/-- The call `n.toString()` on an integer: decimal digits. -/
def bigintToString (n : Nat) : Str := (Nat.toDigits 10 n).map Char.toNat

/-- `Promise.all`: the results in order when every promise fulfils, else rejection. -/
def promiseAll {β : Type} : List (Option β) → Option (List β)
  | [] => some []
  | none :: _ => none
  | some v :: ps =>
    match promiseAll ps with
    | some vs => some (v :: vs)
    | none => none

/-- The async callback mapped over `ids`. -/
def fetchOne {Signer Contract : Type} (B : Blockchain Signer Contract) (contract : Contract)
    (id : Nat) : Option EventRecord :=
  match B.events contract id with
  | some ev =>
    some { id := bigintToString id, creator := ev.creator,
           ticketPrice := bigintToString ev.ticketPrice, metadataURI := ev.metadataURI,
           maxTickets := bigintToString ev.maxTickets,
           ticketsSold := bigintToString ev.ticketsSold }
  | none => none

/-- The body of the `try` block of `fetchEvents` up to `setOnChainEvents`: the array it
would store, or `none` when control passes to `catch`. -/
def fetchAll {Signer Contract : Type} (B : Blockchain Signer Contract) :
    Option (List EventRecord) :=
  match B.connectWallet with
  | none => none
  | some signer =>
    match B.getContractInstance signer with
    | none => none
    | some contract =>
      match B.getAllEventIds signer with
      | none => none
      | some ids => promiseAll (ids.map (fetchOne B contract))

/-- The state when `fetchEvents()` starts waiting: `setLoadingEvents(true)`. -/
def fetchEventsStart (st : State) : State := { st with loadingEvents := true }

/-- The state when `fetchEvents()` has finished. -/
def fetchEvents {Signer Contract : Type} (B : Blockchain Signer Contract) (st : State) :
    State :=
  let st1 := fetchEventsStart st
  let st2 := match fetchAll B with
    | some eventsArr => { st1 with onChainEvents := eventsArr }
    | none => st1
  { st2 with loadingEvents := false }

/-! ## The filter in the words of the specification -/

/-- A record is kept when its raw `metadataURI`, lower-cased, contains the lower-cased
search text and, if a category is selected, its decoded `eventType`, lower-cased, equals
the lower-casing of some selected category. -/
def keptBySpec (H : Host) (searchText : Str) (selected : List Str) (e : EventRecord) :
    Prop :=
  H.toLowerCase searchText <:+: H.toLowerCase e.metadataURI ∧
  (selected ≠ [] →
    ∃ c ∈ selected, H.toLowerCase (parseMetadata H e.metadataURI).eventType = H.toLowerCase c)

instance (H : Host) (searchText : Str) (selected : List Str) (e : EventRecord) :
    Decidable (keptBySpec H searchText selected e) := by
  unfold keptBySpec
  infer_instance

/-! ## Sample data -/

/-- A record as `fetchEvents` builds it, with the given id and metadata URI. -/
def sampleEvent (id : Nat) (uri : String) : EventRecord :=
  { id := bigintToString id, creator := lit "0xA1", ticketPrice := lit "1000",
    metadataURI := lit uri, maxTickets := lit "100", ticketsSold := lit "0" }

def movieNight : EventRecord := sampleEvent 1 "https://tiktr.io/e?title=Dune&eventType=Movie"

def rockConcert : EventRecord := sampleEvent 2 "https://tiktr.io/e?title=Rock&eventType=Concert"

def matinee : EventRecord := sampleEvent 3 "https://tiktr.io/e?title=Noon&eventType=movie"

def cupFinal : EventRecord := sampleEvent 4 "https://tiktr.io/e?title=Final&eventType=Sport"

/-- The four records of the category scenario. -/
def sampleEvents : List EventRecord := [movieNight, rockConcert, matinee, cupFinal]

/-- A record whose title is a Greek word ending in final sigma. -/
def nikosEvent : EventRecord := sampleEvent 5 "https://tiktr.io/e?title=νικος"

/-- Eight records whose URIs all contain "gig". -/
def eightEvents : List EventRecord :=
  (List.range 8).map (fun i => sampleEvent i "https://tiktr.io/e?title=Gig")

/-- The state after the eight records were loaded and the sentinel fired once. -/
def scrolledState : State :=
  { query := lit "", onChainEvents := eightEvents, loadingEvents := false,
    visibleCount := 11, selectedCategories := [] }

/-- The struct the sample ledger returns. -/
def sampleRaw : RawEvent :=
  { creator := lit "0xA1", ticketPrice := 1000,
    metadataURI := lit "https://tiktr.io/e?title=Dune&eventType=Movie",
    maxTickets := 100, ticketsSold := 0 }

/-- A ledger listing ids 1, 2, 3 on which the fetch of event 2 fails. -/
def flakyLedger : Blockchain Unit Unit :=
  { connectWallet := some (), getContractInstance := fun _ => some (),
    getAllEventIds := fun _ => some [1, 2, 3],
    events := fun _ id => if id = 2 then none else some sampleRaw }

/-- A ledger listing ids 1, 2, 3 on which every call succeeds. -/
def steadyLedger : Blockchain Unit Unit :=
  { connectWallet := some (), getContractInstance := fun _ => some (),
    getAllEventIds := fun _ => some [1, 2, 3], events := fun _ _ => some sampleRaw }

/-- What an update from the rendered state `prev` to `next` does with the reveal count:
the first render after the change takes the visible prefix of the new filtered sequence
with the reveal count of `prev`; the effect then sets the count to 6; if the count was
not 6 a second render takes the prefix with 6. -/
def ResetsAfterRender (H : Host) (prev next : State) : Prop :=
  (update H prev next).2 = { next with visibleCount := 6 } ∧
  (update H prev next).1 =
    (if prev.visibleCount = 6 then [render H next]
     else [render H next, render H { next with visibleCount := 6 }]) ∧
  (render H next).currentEvents =
    currentEvents (filteredEvents H prev.onChainEvents next.query next.selectedCategories)
      prev.visibleCount ∧
  (render H { next with visibleCount := 6 }).currentEvents =
    currentEvents (filteredEvents H prev.onChainEvents next.query next.selectedCategories) 6

/-- The search parameters have no pair named `name`. -/
def absent (searchParams : List (Str × Str)) (name : Str) : Prop :=
  ∀ p ∈ searchParams, p.1 ≠ name

/-! ## Lemmas on the built-ins -/

theorem includes_iff_occurs (s p : Str) : includes s p = true ↔ p <:+: s := by
  unfold includes stringIndexOf
  rw [List.find?_isSome]
  constructor
  · rintro ⟨i, -, hi⟩
    have h : (s.drop i).take p.length = p := by simpa using hi
    have h1 : p <+: s.drop i := by
      have := List.take_prefix p.length (s.drop i)
      rwa [h] at this
    exact h1.isInfix.trans (List.drop_suffix i s).isInfix
  · rintro ⟨a, b, rfl⟩
    refine ⟨a.length, ?_, ?_⟩
    · simp only [List.mem_range, List.length_append]
      omega
    · simp

theorem includes_nil (s : Str) : includes s [] = true :=
  (includes_iff_occurs s []).2 List.nil_infix

theorem arrayIncludes_iff (a : List Str) (x : Str) :
    arrayIncludes a x = true ↔ x ∈ a := by
  unfold arrayIncludes
  simp [List.any_eq_true]

theorem arrayIncludes_map_iff (f : Str → Str) (a : List Str) (x : Str) :
    arrayIncludes (a.map f) x = true ↔ ∃ c ∈ a, x = f c := by
  rw [arrayIncludes_iff, List.mem_map]
  constructor
  · rintro ⟨c, hc, rfl⟩
    exact ⟨c, hc, rfl⟩
  · rintro ⟨c, hc, rfl⟩
    exact ⟨c, hc, rfl⟩

/-- The two stages of `filteredEvents` as one filter. -/
theorem filteredEvents_eq_filter (H : Host) (events : List EventRecord) (query : Str)
    (cats : List Str) :
    filteredEvents H events query cats =
      events.filter (fun e => decide (keptBySpec H query cats e)) := by
  unfold filteredEvents
  by_cases hc : cats = []
  · subst hc
    simp only [List.length_nil, gt_iff_lt, lt_self_iff_false, if_false]
    apply List.filter_congr
    intro e _
    rw [Bool.eq_iff_iff]
    simp [keptBySpec, includes_iff_occurs]
  · have hpos : cats.length > 0 := List.length_pos.2 hc
    simp only [hpos, if_true, List.filter_filter]
    apply List.filter_congr
    intro e _
    have h1 := includes_iff_occurs (H.toLowerCase e.metadataURI) (H.toLowerCase query)
    have h2 := arrayIncludes_map_iff H.toLowerCase cats
      (H.toLowerCase (parseMetadata H e.metadataURI).eventType)
    rw [Bool.eq_iff_iff]
    simp only [Bool.and_eq_true, decide_eq_true_eq, keptBySpec, h1, h2]
    constructor
    · rintro ⟨a, b⟩
      exact ⟨b, fun _ => a⟩
    · rintro ⟨a, b⟩
      exact ⟨b hc, a⟩

/-! ## Filtering (C1) -/

/-- C1: the filtered result is the collection restricted, in its original order, to the
records whose lower-cased raw `metadataURI` contains the lower-cased search text and,
when a category is selected, whose lower-cased decoded `eventType` is the lower-casing of
a selected category. With empty search text and no category it is the collection; on
records of type Movie, Concert, movie, Sport selecting "Movie" keeps the first and third,
selecting "Movie" and "Sport" keeps the first, third and fourth. -/
theorem filteredEvents_is_restriction :
    (∀ (H : Host) (events : List EventRecord) (query : Str) (cats : List Str),
      filteredEvents H events query cats =
        events.filter (fun e => decide (keptBySpec H query cats e))) ∧
    (∀ (H : Host) (events : List EventRecord), H.toLowerCase (lit "") = lit "" →
      filteredEvents H events (lit "") [] = events) ∧
    (∀ (URL : Str → Option (List (Str × Str))) (r1 r2 r3 r4 : EventRecord),
      (parseMetadata ⟨toLowerCase, URL⟩ r1.metadataURI).eventType = lit "Movie" →
      (parseMetadata ⟨toLowerCase, URL⟩ r2.metadataURI).eventType = lit "Concert" →
      (parseMetadata ⟨toLowerCase, URL⟩ r3.metadataURI).eventType = lit "movie" →
      (parseMetadata ⟨toLowerCase, URL⟩ r4.metadataURI).eventType = lit "Sport" →
      filteredEvents ⟨toLowerCase, URL⟩ [r1, r2, r3, r4] (lit "") [lit "Movie"] = [r1, r3] ∧
      filteredEvents ⟨toLowerCase, URL⟩ [r1, r2, r3, r4] (lit "") [lit "Movie", lit "Sport"]
        = [r1, r3, r4]) := by
  refine ⟨filteredEvents_eq_filter, ?_, ?_⟩
  · intro H events h0
    have hl : lit "" = ([] : Str) := rfl
    rw [hl] at h0 ⊢
    simp [filteredEvents, h0, includes_nil]
  · intro URL r1 r2 r3 r4 h1 h2 h3 h4
    have hq : toLowerCase (lit "") = [] := by decide
    have a1 : arrayIncludes ([lit "Movie"].map toLowerCase) (toLowerCase (lit "Movie")) = true := by
      decide
    have a2 : arrayIncludes ([lit "Movie"].map toLowerCase) (toLowerCase (lit "Concert")) = false := by
      decide
    have a3 : arrayIncludes ([lit "Movie"].map toLowerCase) (toLowerCase (lit "movie")) = true := by
      decide
    have a4 : arrayIncludes ([lit "Movie"].map toLowerCase) (toLowerCase (lit "Sport")) = false := by
      decide
    have b1 : arrayIncludes ([lit "Movie", lit "Sport"].map toLowerCase)
        (toLowerCase (lit "Movie")) = true := by decide
    have b2 : arrayIncludes ([lit "Movie", lit "Sport"].map toLowerCase)
        (toLowerCase (lit "Concert")) = false := by decide
    have b3 : arrayIncludes ([lit "Movie", lit "Sport"].map toLowerCase)
        (toLowerCase (lit "movie")) = true := by decide
    have b4 : arrayIncludes ([lit "Movie", lit "Sport"].map toLowerCase)
        (toLowerCase (lit "Sport")) = true := by decide
    simp only [List.map] at a1 a2 a3 a4 b1 b2 b3 b4
    constructor
    · simp [filteredEvents, hq, includes_nil, List.filter_cons, h1, h2, h3, h4, a1, a2, a3, a4]
    · simp [filteredEvents, hq, includes_nil, List.filter_cons, h1, h2, h3, h4, b1, b2, b3, b4]

/-- The sample records have the four event types of the scenario, and the three
statements of C1 hold on them. -/
theorem filteredEvents_is_restriction_witness :
    hostModel.toLowerCase (lit "") = lit "" ∧
    (parseMetadata hostModel movieNight.metadataURI).eventType = lit "Movie" ∧
    (parseMetadata hostModel rockConcert.metadataURI).eventType = lit "Concert" ∧
    (parseMetadata hostModel matinee.metadataURI).eventType = lit "movie" ∧
    (parseMetadata hostModel cupFinal.metadataURI).eventType = lit "Sport" ∧
    filteredEvents hostModel [movieNight, rockConcert, matinee, cupFinal] (lit "") []
      = [movieNight, rockConcert, matinee, cupFinal] ∧
    filteredEvents hostModel [movieNight, rockConcert, matinee, cupFinal] (lit "")
      [lit "Movie"] = [movieNight, matinee] ∧
    filteredEvents hostModel [movieNight, rockConcert, matinee, cupFinal] (lit "")
      [lit "Movie", lit "Sport"] = [movieNight, matinee, cupFinal] :=
  have t1 : (parseMetadata hostModel movieNight.metadataURI).eventType = lit "Movie" := by
    decide
  have t2 : (parseMetadata hostModel rockConcert.metadataURI).eventType = lit "Concert" := by
    decide
  have t3 : (parseMetadata hostModel matinee.metadataURI).eventType = lit "movie" := by
    decide
  have t4 : (parseMetadata hostModel cupFinal.metadataURI).eventType = lit "Sport" := by
    decide
  have sc := filteredEvents_is_restriction.2.2 parseURL movieNight rockConcert matinee
    cupFinal t1 t2 t3 t4
  ⟨by decide, t1, t2, t3, t4,
    filteredEvents_is_restriction.2.1 hostModel _ (by decide), sc.1, sc.2⟩

/-! ## Monotonicity in the category selection (C2) -/

/-- C2, as stated, fails: with "Movie" selected two of the four sample records are kept,
and adding "Sport" to the selection keeps three. -/
theorem adding_category_lengthens :
    toggleCategory [lit "Movie"] (lit "Sport") = [lit "Movie"] ++ [lit "Sport"] ∧
    (filteredEvents hostModel sampleEvents (lit "") [lit "Movie"]).length = 2 ∧
    (filteredEvents hostModel sampleEvents (lit "") ([lit "Movie"] ++ [lit "Sport"])).length = 3 ∧
    ¬ (filteredEvents hostModel sampleEvents (lit "") ([lit "Movie"] ++ [lit "Sport"])).length
      ≤ (filteredEvents hostModel sampleEvents (lit "") [lit "Movie"]).length := by
  decide

/-- C2 amended: adding a category to the empty selection never lengthens the result, the
result for the one category being a sublist of the result for none; adding a category to
a non-empty selection never shortens it, the result for `S` being a sublist of the result
for `S` plus `c`. -/
theorem category_selection_monotone (H : Host) (events : List EventRecord) (query : Str)
    (S : List Str) (c : Str) :
    (S = [] →
      (filteredEvents H events query (S ++ [c])).Sublist (filteredEvents H events query S) ∧
      (filteredEvents H events query (S ++ [c])).length
        ≤ (filteredEvents H events query S).length) ∧
    (S ≠ [] →
      (filteredEvents H events query S).Sublist (filteredEvents H events query (S ++ [c])) ∧
      (filteredEvents H events query S).length
        ≤ (filteredEvents H events query (S ++ [c])).length) := by
  have key : ∀ T U : List Str,
      (∀ e, keptBySpec H query T e → keptBySpec H query U e) →
      (filteredEvents H events query T).Sublist (filteredEvents H events query U) := by
    intro T U h
    rw [filteredEvents_eq_filter, filteredEvents_eq_filter]
    apply List.monotone_filter_right
    intro e he
    simpa using h e (by simpa using he)
  constructor
  · intro hS
    subst hS
    have h := key ([] ++ [c]) [] (fun e he => ⟨he.1, fun hne => absurd rfl hne⟩)
    exact ⟨h, h.length_le⟩
  · intro hS
    have h := key S (S ++ [c]) (fun e he => ⟨he.1, fun _ => by
      obtain ⟨d, hd, hdc⟩ := he.2 hS
      exact ⟨d, List.mem_append_left _ hd, hdc⟩⟩)
    exact ⟨h, h.length_le⟩

/-- Both cases of the amended C2 on the sample records. -/
theorem category_selection_monotone_witness :
    ((filteredEvents hostModel sampleEvents (lit "") ([] ++ [lit "Movie"])).length
      ≤ (filteredEvents hostModel sampleEvents (lit "") []).length) ∧
    ((filteredEvents hostModel sampleEvents (lit "") [lit "Movie"]).length
      ≤ (filteredEvents hostModel sampleEvents (lit "") ([lit "Movie"] ++ [lit "Sport"])).length) :=
  ⟨((category_selection_monotone hostModel sampleEvents (lit "") [] (lit "Movie")).1 rfl).2,
   ((category_selection_monotone hostModel sampleEvents (lit "") [lit "Movie"]
      (lit "Sport")).2 (by decide)).2⟩

/-! ## Monotonicity in the search text (C3) -/

/-- C3, as stated, fails: "Σ" is a substring of "ΚΟΣ", yet the record whose URI contains
"νικος" is kept for "ΚΟΣ" (lower-cased to "κος", with final sigma) and dropped for "Σ"
(lower-cased to "σ"). -/
theorem longer_search_text_keeps_more :
    lit "Σ" <:+: lit "ΚΟΣ" ∧
    hostModel.toLowerCase (lit "ΚΟΣ") = lit "κος" ∧
    hostModel.toLowerCase (lit "Σ") = lit "σ" ∧
    filteredEvents hostModel [nikosEvent] (lit "ΚΟΣ") [] = [nikosEvent] ∧
    filteredEvents hostModel [nikosEvent] (lit "Σ") [] = [] := by
  refine ⟨⟨lit "ΚΟ", [], by decide⟩, by decide, by decide, by decide, by decide⟩

/-- C3 amended: when the lower-cased `q` occurs in the lower-cased `q'`, every record
kept for `q'` is kept for `q`, in the same order, and the result for `q'` is not longer. -/
theorem search_text_monotone (H : Host) (events : List EventRecord) (cats : List Str)
    (q q' : Str) (hq : H.toLowerCase q <:+: H.toLowerCase q') :
    (filteredEvents H events q' cats).Sublist (filteredEvents H events q cats) ∧
    (∀ r, r ∈ filteredEvents H events q' cats → r ∈ filteredEvents H events q cats) ∧
    (filteredEvents H events q' cats).length ≤ (filteredEvents H events q cats).length := by
  have h : (filteredEvents H events q' cats).Sublist (filteredEvents H events q cats) := by
    rw [filteredEvents_eq_filter, filteredEvents_eq_filter]
    apply List.monotone_filter_right
    intro e he
    have he' : keptBySpec H q' cats e := by simpa using he
    have : keptBySpec H q cats e := ⟨hq.trans he'.1, he'.2⟩
    simpa using this
  exact ⟨h, fun r hr => h.subset hr, h.length_le⟩

/-- The amended C3 on the sample records, for "mov" inside "MOVIE". -/
theorem search_text_monotone_witness :
    hostModel.toLowerCase (lit "mov") <:+: hostModel.toLowerCase (lit "MOVIE") ∧
    (filteredEvents hostModel sampleEvents (lit "MOVIE") []).length
      ≤ (filteredEvents hostModel sampleEvents (lit "mov") []).length :=
  have h : hostModel.toLowerCase (lit "mov") <:+: hostModel.toLowerCase (lit "MOVIE") :=
    ⟨[], lit "ie", by decide⟩
  ⟨h, (search_text_monotone hostModel sampleEvents [] (lit "mov") (lit "MOVIE") h).2.2⟩

/-! ## Metadata decoding (C4) -/

theorem searchParamsGet_absent (searchParams : List (Str × Str)) (name : Str)
    (h : absent searchParams name) : searchParamsGet searchParams name = none := by
  unfold searchParamsGet
  rw [Option.map_eq_none', List.find?_eq_none]
  intro p hp
  simpa using h p hp

/-- C4: `parseMetadata` returns a record for every string. When the URL constructor
throws, the record is the all-defaults record; when it succeeds, each of the six fields
whose query parameter is absent has its default. -/
theorem parseMetadata_defaults (H : Host) (metadataURI : Str) :
    defaultMetadata = ⟨lit "No Title", lit "No Description", lit "N/A", lit "N/A", lit "",
      lit ""⟩ ∧
    (H.URL metadataURI = none → parseMetadata H metadataURI = defaultMetadata) ∧
    (∀ searchParams, H.URL metadataURI = some searchParams →
      (absent searchParams (lit "title") →
        (parseMetadata H metadataURI).title = lit "No Title") ∧
      (absent searchParams (lit "desc") →
        (parseMetadata H metadataURI).desc = lit "No Description") ∧
      (absent searchParams (lit "date") →
        (parseMetadata H metadataURI).date = lit "N/A") ∧
      (absent searchParams (lit "location") →
        (parseMetadata H metadataURI).location = lit "N/A") ∧
      (absent searchParams (lit "image") →
        (parseMetadata H metadataURI).image = lit "") ∧
      (absent searchParams (lit "eventType") →
        (parseMetadata H metadataURI).eventType = lit "")) := by
  refine ⟨rfl, ?_, ?_⟩
  · intro h
    simp [parseMetadata, h]
  · intro searchParams h
    simp only [parseMetadata, h]
    refine ⟨?_, ?_, ?_, ?_, ?_, ?_⟩ <;>
    · intro ha
      rw [searchParamsGet_absent _ _ ha]
      rfl

/-- A string without a scheme decodes to the defaults; a URL with only `title` and
`eventType` gets the default description. -/
theorem parseMetadata_defaults_witness :
    hostModel.URL (lit "not a url") = none ∧
    parseMetadata hostModel (lit "not a url") = defaultMetadata ∧
    absent (parseQuery (lit "title=Dune&eventType=Movie")) (lit "desc") ∧
    (parseMetadata hostModel movieNight.metadataURI).desc = lit "No Description" ∧
    (parseMetadata hostModel movieNight.metadataURI).title = lit "Dune" :=
  have h0 : hostModel.URL (lit "not a url") = none := by decide
  have h1 : hostModel.URL movieNight.metadataURI
      = some (parseQuery (lit "title=Dune&eventType=Movie")) := by decide
  have h2 : absent (parseQuery (lit "title=Dune&eventType=Movie")) (lit "desc") := by
    unfold absent
    decide
  ⟨h0, (parseMetadata_defaults hostModel (lit "not a url")).2.1 h0, h2,
    ((parseMetadata_defaults hostModel movieNight.metadataURI).2.2 _ h1).2.1 h2, by decide⟩

/-! ## Trending (C5) -/

theorem slice_neg_none {α : Type} (a : List α) (n : Nat) (hn : 0 < n) :
    slice a (-(n : Int)) none = a.drop (a.length - n) := by
  unfold slice relIndex
  have h : (-(n : Int)) < 0 := by omega
  have hk : ((a.length : Int) + -(n : Int)).toNat = a.length - n := by omega
  simp only [h, if_true, hk]
  apply List.take_of_length_le
  simp

theorem latestEvents_eq_drop (xs : List EventRecord) :
    latestEvents xs = (xs.drop (xs.length - 5)).reverse := by
  unfold latestEvents
  have h := slice_neg_none xs 5 (by decide)
  simp only [Nat.cast_ofNat] at h
  by_cases hx : xs.length > 0
  · simp only [hx, if_true, h]
  · have : xs = [] := List.length_eq_zero.1 (by omega)
    subst this
    simp

theorem store_read_append_left {α : Type} (h : Store α) (a : List α) (r : Nat)
    (hr : r < h.length) : Store.read (h ++ [a]) r = Store.read h r := by
  unfold Store.read
  simp [List.getD_eq_getElem?_getD, List.getElem?_append_left hr]

theorem store_read_append_new {α : Type} (h : Store α) (a : List α) :
    Store.read (h ++ [a]) h.length = a := by
  unfold Store.read
  simp [List.getD_eq_getElem?_getD]

theorem store_read_set_same {α : Type} (h : Store α) (a : List α) (r : Nat)
    (hr : r < h.length) : Store.read (h.set r a) r = a := by
  unfold Store.read
  simp [List.getD_eq_getElem?_getD, List.getElem?_set_self, hr]

theorem store_read_set_other {α : Type} (h : Store α) (a : List α) (r r' : Nat)
    (hne : r ≠ r') : Store.read (h.set r a) r' = Store.read h r' := by
  unfold Store.read
  simp [List.getD_eq_getElem?_getD, List.getElem?_set_ne hne]

/-- C5: `latestEvents` is the last five records of the collection, most recent first:
the reversed collection cut to five. With fewer than five records it is the whole
collection reversed, empty for the empty collection. Evaluating the expression leaves
every array that existed before, the collection among them, as it was. -/
theorem latestEvents_last_five_reversed :
    (∀ xs : List EventRecord,
      latestEvents xs = (xs.drop (xs.length - 5)).reverse ∧
      latestEvents xs = xs.reverse.take 5 ∧
      (latestEvents xs).length = min 5 xs.length ∧
      (xs.length < 5 → latestEvents xs = xs.reverse)) ∧
    latestEvents [] = [] ∧
    (∀ a b c d e : EventRecord, latestEvents [a, b, c, d, e] = [e, d, c, b, a]) ∧
    (∀ a b c : EventRecord, latestEvents [a, b, c] = [c, b, a]) ∧
    (∀ (h : Store EventRecord) (onChainEvents : Nat), onChainEvents < h.length →
      (latestEventsRef h onChainEvents).1.read (latestEventsRef h onChainEvents).2
        = latestEvents (h.read onChainEvents) ∧
      ∀ r, r < h.length → (latestEventsRef h onChainEvents).1.read r = h.read r) := by
  refine ⟨?_, rfl, fun a b c d e => rfl, fun a b c => rfl, ?_⟩
  · intro xs
    have h1 := latestEvents_eq_drop xs
    have h2 : latestEvents xs = xs.reverse.take 5 := by
      rw [h1, List.reverse_drop]
      by_cases h5 : 5 ≤ xs.length
      · congr 1
        omega
      · rw [List.take_of_length_le (by simp; omega), List.take_of_length_le (by simp; omega)]
    refine ⟨h1, h2, ?_, ?_⟩
    · rw [h2]
      simp
    · intro hlt
      rw [h2]
      apply List.take_of_length_le
      simp
      omega
  · intro h r hr
    unfold latestEventsRef
    by_cases hx : (Store.read h r).length > 0
    · simp only [hx, if_true, spreadRef, sliceRef, reverseRef, Store.alloc]
      have e2 : (h ++ [Store.read h r]).length = h.length + 1 := by simp
      have e1 : Store.read (h ++ [Store.read h r]) h.length = Store.read h r :=
        store_read_append_new h _
      have e3 : Store.read (h ++ [Store.read h r] ++ [slice (Store.read h r) (-5) none])
          (h.length + 1) = slice (Store.read h r) (-5) none := by
        have := store_read_append_new (h ++ [Store.read h r])
          (slice (Store.read h r) (-5) none)
        rwa [e2] at this
      simp only [e1, e2, e3]
      constructor
      · rw [store_read_set_same _ _ _ (by simp)]
        simp [latestEvents, hx]
      · intro r' hr'
        rw [store_read_set_other _ _ _ _ (by omega),
          store_read_append_left _ _ _ (by simp; omega), store_read_append_left _ _ _ hr']
    · simp only [hx, if_false, Store.alloc]
      have : Store.read h r = [] := List.length_eq_zero.1 (by omega)
      refine ⟨?_, fun r' hr' => store_read_append_left h _ r' hr'⟩
      rw [store_read_append_new]
      simp [latestEvents, this]

/-- The sample collection of four records, held as the only array of a store: the
trending strip is the collection reversed and the collection is unchanged. -/
theorem latestEvents_last_five_reversed_witness :
    sampleEvents.length < 5 ∧ latestEvents sampleEvents = sampleEvents.reverse ∧
    0 < [sampleEvents].length ∧
    (latestEventsRef [sampleEvents] 0).1.read 0 = Store.read [sampleEvents] 0 :=
  ⟨by decide, (latestEvents_last_five_reversed.1 sampleEvents).2.2.2 (by decide),
    by decide, (latestEvents_last_five_reversed.2.2.2.2 [sampleEvents] 0 (by decide)).2 0
      (by decide)⟩

/-! ## Scroll reveal (C6) -/

theorem scrollStep_eq (n L : Nat) : scrollStep n L = if n < L then n + 5 else n := by
  unfold scrollStep observerCallback applyUpdater
  by_cases h : n < L <;> simp [h]

/-- C6: an intersecting sentinel entry raises the reveal count `n` by 5 when `n` is
below the filtered length `L` and leaves it otherwise; the count never decreases, and
from `n ≥ L` any number of firings leaves it; from 6, two steps with `L = 20` give 16
and a step with `L = 16` leaves 16. -/
theorem scrollStep_reveal (n L : Nat) :
    scrollStep n L = (if n < L then n + 5 else n) ∧
    n ≤ scrollStep n L ∧
    (L ≤ n → ∀ k : Nat, (fun m => scrollStep m L)^[k] n = n) ∧
    scrollStep (scrollStep 6 20) 20 = 16 ∧
    scrollStep (scrollStep (scrollStep 6 20) 20) 16 = 16 := by
  refine ⟨scrollStep_eq n L, ?_, ?_, by decide, by decide⟩
  · rw [scrollStep_eq]
    split <;> omega
  · intro h k
    induction k with
    | zero => rfl
    | succ k ih =>
      rw [Function.iterate_succ_apply', ih, scrollStep_eq]
      simp only [Nat.not_lt.2 h, if_false]

/-- At the end of a list of 16, three further firings leave the count at 16. -/
theorem scrollStep_reveal_witness :
    16 ≤ 16 ∧ (fun m => scrollStep m 16)^[3] 16 = 16 :=
  ⟨Nat.le_refl 16, (scrollStep_reveal 16 16).2.2.1 (Nat.le_refl 16) 3⟩

/-! ## Visible prefix (C7) -/

/-- C7: the visible sequence is the prefix of the filtered sequence of length
`min n (length filtered)`; it is never longer than the filtered sequence. -/
theorem currentEvents_is_take (filtered : List EventRecord) (n : Nat) :
    currentEvents filtered n = filtered.take (min n filtered.length) ∧
    currentEvents filtered n <+: filtered ∧
    (currentEvents filtered n).length = min n filtered.length ∧
    (currentEvents filtered n).length ≤ filtered.length := by
  have h : currentEvents filtered n = filtered.take (min n filtered.length) := by
    unfold currentEvents slice relIndex
    have hn : ¬ ((n : Int) < 0) := by omega
    simp [hn]
  refine ⟨h, ?_, ?_, ?_⟩
  · rw [h]
    exact List.take_prefix _ _
  · rw [h]
    simp
  · rw [h]
    simp

/-! ## Category toggle (C9) -/

/-- C9: after `toggleCategory`, `c` is selected exactly when it was not before; every
other string, compared exactly, is selected exactly when it was before; the other
categories keep their order. Strings differing only in case are different categories. -/
theorem toggleCategory_flips (prev : List Str) (c : Str) :
    (c ∈ toggleCategory prev c ↔ c ∉ prev) ∧
    (∀ d : Str, d ≠ c → (d ∈ toggleCategory prev c ↔ d ∈ prev)) ∧
    (toggleCategory prev c).filter (fun d => d != c) = prev.filter (fun d => d != c) ∧
    toggleCategory [lit "Movie"] (lit "movie") = [lit "Movie", lit "movie"] := by
  unfold toggleCategory
  by_cases h : c ∈ prev
  · have hi : arrayIncludes prev c = true := (arrayIncludes_iff prev c).2 h
    simp only [hi, if_true]
    refine ⟨?_, ?_, ?_, by decide⟩
    · simp [h]
    · intro d hd
      simp [hd]
    · simp [List.filter_filter]
  · have hi : arrayIncludes prev c = false := by
      rw [← Bool.not_eq_true, arrayIncludes_iff]
      exact h
    simp only [hi, Bool.false_eq_true, if_false]
    refine ⟨?_, ?_, ?_, by decide⟩
    · simp [h]
    · intro d hd
      simp [hd]
    · simp [List.filter_append]

/-- Toggling "Sport" off a selection of "Movie" and "Sport" keeps "Movie". -/
theorem toggleCategory_flips_witness :
    lit "Movie" ≠ lit "Sport" ∧
    (lit "Movie" ∈ toggleCategory [lit "Movie", lit "Sport"] (lit "Sport")
      ↔ lit "Movie" ∈ [lit "Movie", lit "Sport"]) ∧
    toggleCategory [lit "Movie", lit "Sport"] (lit "Sport") = [lit "Movie"] :=
  ⟨by decide,
    (toggleCategory_flips [lit "Movie", lit "Sport"] (lit "Sport")).2.1 (lit "Movie")
      (by decide),
    by decide⟩

/-! ## Refresh (C10) -/

theorem promiseAll_none {β : Type} (ps : List (Option β)) (h : none ∈ ps) :
    promiseAll ps = none := by
  induction ps with
  | nil => simp at h
  | cons p ps ih =>
    rcases List.mem_cons.1 h with hp | hp
    · subst hp
      simp [promiseAll]
    · cases p <;> simp [promiseAll, ih hp]

theorem promiseAll_some {β : Type} (ps : List (Option β)) (h : ∀ p ∈ ps, p.isSome = true) :
    ∃ vs, promiseAll ps = some vs ∧ vs.map some = ps := by
  induction ps with
  | nil => exact ⟨[], rfl, rfl⟩
  | cons p ps ih =>
    obtain ⟨vs, hvs, hmap⟩ := ih (fun q hq => h q (List.mem_cons_of_mem _ hq))
    cases p with
    | none => simpa using h none (List.mem_cons_self _ _)
    | some v => exact ⟨v :: vs, by simp [promiseAll, hvs], by simp [hmap]⟩

theorem fetchEvents_of_none {Signer Contract : Type} (B : Blockchain Signer Contract)
    (st : State) (h : fetchAll B = none) :
    fetchEvents B st = { st with loadingEvents := false } := by
  simp [fetchEvents, fetchEventsStart, h]

/-- C10: a refresh ends with `loading` false. When the wallet connection, the contract
handle, the id listing or one of the per-event fetches fails, the collection is what it
was before the call; when all succeed the collection is the fetched records in id order. -/
theorem fetchEvents_all_or_nothing {Signer Contract : Type} (B : Blockchain Signer Contract)
    (st : State) :
    (fetchEvents B st).loadingEvents = false ∧
    (B.connectWallet = none → (fetchEvents B st).onChainEvents = st.onChainEvents) ∧
    (∀ signer, B.connectWallet = some signer → B.getContractInstance signer = none →
      (fetchEvents B st).onChainEvents = st.onChainEvents) ∧
    (∀ signer, B.connectWallet = some signer → B.getAllEventIds signer = none →
      (fetchEvents B st).onChainEvents = st.onChainEvents) ∧
    (∀ signer contract ids, B.connectWallet = some signer →
      B.getContractInstance signer = some contract → B.getAllEventIds signer = some ids →
      (∃ id ∈ ids, B.events contract id = none) →
      (fetchEvents B st).onChainEvents = st.onChainEvents) ∧
    (∀ signer contract ids, B.connectWallet = some signer →
      B.getContractInstance signer = some contract → B.getAllEventIds signer = some ids →
      (∀ id ∈ ids, (B.events contract id).isSome = true) →
      (fetchEvents B st).onChainEvents.map some = ids.map (fetchOne B contract)) := by
  refine ⟨rfl, ?_, ?_, ?_, ?_, ?_⟩
  · intro h
    rw [fetchEvents_of_none B st (by simp [fetchAll, h])]
  · intro signer h1 h2
    rw [fetchEvents_of_none B st (by simp [fetchAll, h1, h2])]
  · intro signer h1 h3
    have : fetchAll B = none := by
      unfold fetchAll
      simp only [h1, h3]
      cases B.getContractInstance signer <;> rfl
    rw [fetchEvents_of_none B st this]
  · intro signer contract ids h1 h2 h3 ⟨id, hid, hfail⟩
    have : fetchAll B = none := by
      unfold fetchAll
      simp only [h1, h2, h3]
      apply promiseAll_none
      rw [List.mem_map]
      exact ⟨id, hid, by simp [fetchOne, hfail]⟩
    rw [fetchEvents_of_none B st this]
  · intro signer contract ids h1 h2 h3 hall
    obtain ⟨vs, hvs, hmap⟩ := promiseAll_some (ids.map (fetchOne B contract)) (by
      intro p hp
      obtain ⟨id, hid, rfl⟩ := List.mem_map.1 hp
      have := hall id hid
      unfold fetchOne
      cases h : B.events contract id with
      | none => simp [h] at this
      | some ev => rfl)
    have : fetchAll B = some vs := by
      unfold fetchAll
      simp only [h1, h2, h3, hvs]
    simp [fetchEvents, fetchEventsStart, this, hmap]

/-- On the ledger whose second fetch fails the scrolled state keeps its eight records;
on the ledger without failures three records are stored. -/
theorem fetchEvents_all_or_nothing_witness :
    (∃ id ∈ [1, 2, 3], flakyLedger.events () id = none) ∧
    (fetchEvents flakyLedger scrolledState).onChainEvents = eightEvents ∧
    (fetchEvents flakyLedger scrolledState).loadingEvents = false ∧
    (fetchEvents steadyLedger scrolledState).onChainEvents.length = 3 :=
  have hfail : ∃ id ∈ [1, 2, 3], flakyLedger.events () id = none := ⟨2, by decide, rfl⟩
  ⟨hfail,
    (fetchEvents_all_or_nothing flakyLedger scrolledState).2.2.2.2.1 () () [1, 2, 3] rfl rfl
      rfl hfail,
    rfl, by decide⟩

/-! ## Reset of the reveal count (C8) -/

theorem toggleCategory_mem_self (prev : List Str) (c : Str) :
    c ∈ toggleCategory prev c ↔ c ∉ prev := by
  unfold toggleCategory
  by_cases h : c ∈ prev
  · simp [(arrayIncludes_iff prev c).2 h, h]
  · have hi : arrayIncludes prev c = false := by
      rw [← Bool.not_eq_true, arrayIncludes_iff]
      exact h
    simp [hi, h]

theorem toggleCategory_ne (prev : List Str) (c : Str) : toggleCategory prev c ≠ prev := by
  intro h
  have := toggleCategory_mem_self prev c
  rw [h] at this
  by_cases hc : c ∈ prev
  · exact (this.1 hc) hc
  · exact hc (this.2 hc)

theorem resetsAfterRender_of_changed (H : Host) (prev next : State)
    (hcount : next.visibleCount = prev.visibleCount)
    (hevents : next.onChainEvents = prev.onChainEvents)
    (hdeps : depsChanged prev next = true) : ResetsAfterRender H prev next := by
  unfold ResetsAfterRender update resetEffect
  simp only [hdeps, if_true]
  refine ⟨?_, ?_, ?_, ?_⟩
  · split <;> rfl
  · by_cases h6 : prev.visibleCount = 6
    · simp [h6, hcount]
    · have : ¬ (6 = next.visibleCount) := by
        rw [hcount]
        exact fun h => h6 h.symm
      simp [h6, this]
  · simp [render, hcount, hevents]
  · simp [render, hevents]

/-- C8, as stated, fails: with eight records loaded and the reveal count grown to 11,
typing "gig" is followed by a render whose visible prefix of the new filtered sequence is
taken with the count 11 and has eight records; only the render after it uses 6. -/
theorem stale_reveal_count_rendered :
    scrolledState.visibleCount
      = scrollStep 6 (filteredEvents hostModel eightEvents (lit "") []).length ∧
    lit "gig" ≠ scrolledState.query ∧
    (update hostModel scrolledState (searchqueryfunc scrolledState (lit "gig"))).1.map
      (fun v => v.currentEvents.length) = [8, 6] ∧
    (update hostModel scrolledState (searchqueryfunc scrolledState (lit "gig"))).1.head?.map
      View.currentEvents
      = some (currentEvents (filteredEvents hostModel eightEvents (lit "gig") []) 11) ∧
    currentEvents (filteredEvents hostModel eightEvents (lit "gig") []) 11
      ≠ currentEvents (filteredEvents hostModel eightEvents (lit "gig") []) 6 := by
  decide

/-- C8 amended: after the search text is changed, or a category toggled, the next render
takes the visible prefix of the new filtered sequence with the previous reveal count; the
effect that runs after that render sets the count to 6, whatever it was; when it was not
6 one more render follows, which takes the prefix with 6. -/
theorem reset_follows_first_render (H : Host) (st : State) :
    (∀ value : Str, value ≠ st.query → ResetsAfterRender H st (searchqueryfunc st value)) ∧
    (∀ c : Str, ResetsAfterRender H st (clickCategory st c)) := by
  constructor
  · intro value hv
    refine resetsAfterRender_of_changed H st (searchqueryfunc st value) rfl rfl ?_
    simp [depsChanged, searchqueryfunc, Ne.symm hv]
  · intro c
    refine resetsAfterRender_of_changed H st (clickCategory st c) rfl rfl ?_
    simp [depsChanged, clickCategory, Ne.symm (toggleCategory_ne st.selectedCategories c)]

/-- Typing "gig" into the scrolled state ends with reveal count 6. -/
theorem reset_follows_first_render_witness :
    lit "gig" ≠ scrolledState.query ∧
    (update hostModel scrolledState (searchqueryfunc scrolledState (lit "gig"))).2.visibleCount
      = 6 :=
  have h : lit "gig" ≠ scrolledState.query := by decide
  ⟨h, by
    rw [((reset_follows_first_render hostModel scrolledState).1 (lit "gig") h).1]⟩

end ShowFinder
